import Mathlib

/-!
Shallow embedding of the tasuki orchestration engine and proofs about its
task lifecycle, planner scheduling, retry/backoff and worker-loop behaviour.

Source files embedded:
 * `tasuki/task_store.py`   — `Task`, `TaskStore` (add / add_many / claim /
   complete / get_pending / get_by_planner / get_handoffs_for_planner) and the
   `to_dict` / `from_dict` snapshot serialization.
 * `tasuki/planner_registry.py` — `SubPlanner`, `PlannerRegistry`
   (add_sub / mark_run / get_subs_to_run) and its serialization.
 * `tasuki/llm.py`           — `_is_rate_limit_error` and the retry /
   fallback control loop of `chat`.
 * `tasuki/worker.py`        — `_parse_tool_call`,
   `extract_handoff_from_response` and the tool loop of `run_worker`.

Modelling conventions:
 * A Python `dict[str, V]` is an insertion-ordered association list
   `List (String × V)`; assignment updates an existing key in place
   (keeping its position) and appends a fresh key at the end, exactly the
   observable behaviour of a CPython dict.
 * `pathlib.Path` values are modelled by their string form.  `str(Path p)`
   is never the empty string (`Path("")` normalizes to `"."`), and
   `Path (str p) = p`; we model both conversions as the identity on
   non-empty strings.
 * File persistence (`_save` / `_load`) and logging are I/O side effects
   with no influence on the in-memory state transitions and are dropped;
   the serialization they use (`to_dict` / `from_dict`) is embedded.
 * Remote LLM calls and shell tools are environment oracles: functions
   supplied as parameters that return the response for each call site.
-/

namespace Tasuki

/-- Lookup in a Python dict modelled as an association list
(first matching key wins; keys are unique by construction of `dictSet`). -/
def dictGet {α : Type} : List (String × α) → String → Option α
  | [], _ => none
  | (k2, v) :: rest, k => if k2 = k then some v else dictGet rest k

/-- Python dict assignment `d[k] = v`: update an existing key in place
(keeping its position in iteration order) or append a fresh key. -/
def dictSet {α : Type} : List (String × α) → String → α → List (String × α)
  | [], k, v => [(k, v)]
  | (k2, v2) :: rest, k, v =>
    if k2 = k then (k, v) :: rest else (k2, v2) :: dictSet rest k v

theorem dictGet_dictSet_self {α : Type} (s : List (String × α)) (k : String) (v : α) :
    dictGet (dictSet s k v) k = some v := by
  induction s with
  | nil => simp [dictGet, dictSet]
  | cons hd tl ih =>
    obtain ⟨k2, v2⟩ := hd
    by_cases h : k2 = k
    · simp [dictGet, dictSet, h]
    · simp [dictGet, dictSet, h, ih]

theorem dictGet_dictSet_ne {α : Type} (s : List (String × α)) (k k2 : String) (v : α)
    (h : k2 ≠ k) : dictGet (dictSet s k v) k2 = dictGet s k2 := by
  have h2 : ¬ k = k2 := fun hh => h hh.symm
  induction s with
  | nil => simp [dictGet, dictSet, h2]
  | cons hd tl ih =>
    obtain ⟨k3, v3⟩ := hd
    by_cases h3 : k3 = k
    · subst h3
      simp [dictGet, dictSet, h2]
    · simp only [dictSet, if_neg h3]
      by_cases h4 : k3 = k2 <;> simp [dictGet, h4, ih]

/-- `tasuki/task_store.py`: dataclass `Task`.  `status` is one of the strings
`"pending" | "running" | "done"` in intended use, but the field itself is an
arbitrary string, as in the source.  `meta` is `dict[str, Any]`; its values
are opaque to every embedded operation, modelled here as strings. -/
structure Task where
  id : String
  planner_id : String
  description : String
  status : String := "pending"
  worker_id : Option String := none
  handoff_path : Option String := none
  meta : List (String × String) := []
deriving DecidableEq, Repr

/-- `TaskStore._tasks : dict[str, Task]`. -/
abbrev TaskStore := List (String × Task)

/-- `TaskStore.add`: `self._tasks[task.id] = task` (then `_save`). -/
def TaskStore.add (s : TaskStore) (task : Task) : TaskStore :=
  dictSet s task.id task

/-- `TaskStore.add_many`: assigns each task in order (then `_save`). -/
def TaskStore.add_many (s : TaskStore) (tasks : List Task) : TaskStore :=
  tasks.foldl (fun acc t => dictSet acc t.id t) s

/-- `TaskStore.get_pending`: tasks whose status is `"pending"`, in dict
iteration (insertion) order. -/
def TaskStore.get_pending (s : TaskStore) : List Task :=
  (s.map Prod.snd).filter (fun t => t.status == "pending")

/-- `TaskStore.claim`: if the id is present and the task is `"pending"`,
set its status to `"running"`, stamp the worker id and return the task;
otherwise return `None`.  The pair is (return value, store after the call). -/
def TaskStore.claim (s : TaskStore) (task_id worker_id : String) :
    Option Task × TaskStore :=
  match dictGet s task_id with
  | some t =>
    if t.status = "pending" then
      let t2 : Task := { t with status := "running", worker_id := some worker_id }
      (some t2, dictSet s task_id t2)
    else (none, s)
  | none => (none, s)

/-- `TaskStore.complete`: if the id is present, set status to `"done"` and
record the handoff path; silently do nothing otherwise. -/
def TaskStore.complete (s : TaskStore) (task_id : String) (handoff_path : String) :
    TaskStore :=
  match dictGet s task_id with
  | some t => dictSet s task_id { t with status := "done", handoff_path := some handoff_path }
  | none => s

/-- `TaskStore.get_by_planner`. -/
def TaskStore.get_by_planner (s : TaskStore) (planner_id : String) : List Task :=
  (s.map Prod.snd).filter (fun t => t.planner_id == planner_id)

/-- `TaskStore.get_handoffs_for_planner`: done tasks of the planner that carry
a handoff path (a non-`None` `Path` is always truthy in Python). -/
def TaskStore.get_handoffs_for_planner (s : TaskStore) (planner_id : String) : List Task :=
  (s.map Prod.snd).filter
    (fun t => t.planner_id == planner_id && t.status == "done" && t.handoff_path.isSome)

/-- The status recorded for a task id, if the id is present. -/
def statusOf (s : TaskStore) (tid : String) : Option String :=
  (dictGet s tid).map Task.status

/-- The handoff path recorded for a task id, if the id is present. -/
def handoffOf (s : TaskStore) (tid : String) : Option (Option String) :=
  (dictGet s tid).map Task.handoff_path

/-! ### Text utilities shared by the embeddings of `worker.py` and
`planner_registry.py` (Python `str.strip`, `str.splitlines`, substring
search).  Python whitespace for `strip` and the regex class `\s` is the
ASCII set space, tab, newline, carriage return, form feed, vertical tab
(the agent strings handled here are ASCII). -/

def isPyWs (c : Char) : Bool :=
  c = ' ' || c = '\t' || c = '\n' || c = '\r' || c = Char.ofNat 11 || c = Char.ofNat 12

/-- Python `str.strip()` on a character list. -/
def stripChars (cs : List Char) : List Char :=
  ((cs.dropWhile isPyWs).reverse.dropWhile isPyWs).reverse

/-- Python `str.strip()`. -/
def pyStrip (s : String) : String :=
  (stripChars s.toList).asString

/-- Does `pat` occur at the head of `s`? -/
def headMatches : List Char → List Char → Bool
  | [], _ => true
  | _ :: _, [] => false
  | p :: ps, c :: cs => p = c && headMatches ps cs

/-- Index of the first occurrence of `pat` in `s` (Python `str.find`,
restricted to the found case). -/
def findIdxFrom (pat : List Char) : List Char → Option Nat
  | [] => if pat.isEmpty then some 0 else none
  | s@(_ :: rest) =>
    if headMatches pat s then some 0
    else (findIdxFrom pat rest).map (· + 1)

/-- Index of the last occurrence of `pat` in `s` (Python `str.rfind`,
restricted to the found case). -/
def rfindIdxFrom (pat : List Char) : List Char → Option Nat
  | [] => if pat.isEmpty then some 0 else none
  | s@(_ :: rest) =>
    match rfindIdxFrom pat rest with
    | some i => some (i + 1)
    | none => if headMatches pat s then some 0 else none

/-- Python `pat in s` substring test (used by `_is_rate_limit_error`). -/
def containsSub (s pat : String) : Bool :=
  (findIdxFrom pat.toList s.toList).isSome

/-- Python `str.splitlines()` on character lists: split at `\r\n`, `\r` or
`\n`, terminators dropped, no trailing empty line, `[]` for the empty
string. -/
def splitlinesChars : List Char → List Char → List (List Char)
  | [], cur => if cur.isEmpty then [] else [cur.reverse]
  | '\r' :: '\n' :: rest, cur => cur.reverse :: splitlinesChars rest []
  | '\r' :: rest, cur => cur.reverse :: splitlinesChars rest []
  | '\n' :: rest, cur => cur.reverse :: splitlinesChars rest []
  | c :: rest, cur => splitlinesChars rest (c :: cur)

/-- Python `str.splitlines()`. -/
def pySplitlines (s : String) : List String :=
  (splitlinesChars s.toList []).map List.asString

/-! ### `tasuki/planner_registry.py` -/

/-- Dataclass `SubPlanner`.  `is_new` is true until the sub-planner's first
run. -/
structure SubPlanner where
  id : String
  parent_id : String
  scope : String
  is_new : Bool := true
deriving DecidableEq, Repr

/-- `PlannerRegistry._subs : dict[str, SubPlanner]`. -/
abbrev PlannerRegistry := List (String × SubPlanner)

/-- `PlannerRegistry.add_sub`.  The generated id `sub-<uuid8>` comes from an
external randomness source and is passed in as `sid`. -/
def PlannerRegistry.add_sub (reg : PlannerRegistry) (sid parent_id scope : String) :
    PlannerRegistry × SubPlanner :=
  let sub : SubPlanner := { id := sid, parent_id := parent_id, scope := pyStrip scope, is_new := true }
  (dictSet reg sid sub, sub)

/-- `PlannerRegistry.get`. -/
def PlannerRegistry.get (reg : PlannerRegistry) (planner_id : String) : Option SubPlanner :=
  dictGet reg planner_id

/-- `PlannerRegistry.get_all_subs`. -/
def PlannerRegistry.get_all_subs (reg : PlannerRegistry) : List SubPlanner :=
  reg.map Prod.snd

/-- `PlannerRegistry.get_subs_to_run`: the loop appends `sub` when
`sub.is_new` holds, and otherwise when `task_store.get_handoffs_for_planner(sub.id)`
is non-empty; i.e. it filters the registry values in order. -/
def PlannerRegistry.get_subs_to_run (reg : PlannerRegistry) (task_store : TaskStore) :
    List SubPlanner :=
  (reg.map Prod.snd).filter
    (fun sub => sub.is_new || !(TaskStore.get_handoffs_for_planner task_store sub.id).isEmpty)

/-- `PlannerRegistry.mark_run`: clear `is_new` if the id is registered. -/
def PlannerRegistry.mark_run (reg : PlannerRegistry) (planner_id : String) : PlannerRegistry :=
  match dictGet reg planner_id with
  | some sub => dictSet reg planner_id { sub with is_new := false }
  | none => reg

/-! ### Snapshot serialization (`Task.to_dict` / `Task.from_dict`,
`SubPlanner.to_dict` / `SubPlanner.from_dict`).  The JSON dicts written by
`_save` have a fixed key set, modelled as structures. -/

/-- The JSON object produced for one task. -/
structure TaskDict where
  id : String
  planner_id : String
  description : String
  status : String
  worker_id : Option String
  handoff_path : Option String
  meta : List (String × String)
deriving DecidableEq, Repr

/-- `Task.to_dict`.  `handoff_path` is `str(self.handoff_path) if
self.handoff_path else None`; a non-`None` `Path` is always truthy and its
string form (never empty) is modelled as the path itself. -/
def Task.to_dict (t : Task) : TaskDict :=
  { id := t.id
    planner_id := t.planner_id
    description := t.description
    status := t.status
    worker_id := t.worker_id
    handoff_path := t.handoff_path
    meta := t.meta }

/-- `Task.from_dict`.  `status`, `worker_id` and `meta` use `d.get` with
defaults, but the keys are always present in a dict written by `to_dict`.
`handoff_path` is `Path(d["handoff_path"]) if d.get("handoff_path") else
None`: the empty string is falsy, so it maps to `None`. -/
def Task.from_dict (d : TaskDict) : Task :=
  { id := d.id
    planner_id := d.planner_id
    description := d.description
    status := d.status
    worker_id := d.worker_id
    handoff_path :=
      match d.handoff_path with
      | some p => if p = "" then none else some p
      | none => none
    meta := d.meta }

/-- The JSON object produced for one sub-planner. -/
structure SubPlannerDict where
  id : String
  parent_id : String
  scope : String
  is_new : Bool
deriving DecidableEq, Repr

/-- `SubPlanner.to_dict`. -/
def SubPlanner.to_dict (s : SubPlanner) : SubPlannerDict :=
  { id := s.id, parent_id := s.parent_id, scope := s.scope, is_new := s.is_new }

/-- `SubPlanner.from_dict`. -/
def SubPlanner.from_dict (d : SubPlannerDict) : SubPlanner :=
  { id := d.id, parent_id := d.parent_id, scope := d.scope, is_new := d.is_new }

/-! ### `tasuki/llm.py`: rate-limit classification and the retry / fallback
loop of `chat`.  A single `_call_once` either returns response text or
raises; the remote environment is an oracle `env : String → Nat → CallResult`
giving, for each model name and 0-based attempt index on that model, the
outcome of the call.  The trace of observable actions (attempts and backoff
sleeps, in order) is returned alongside the result; `none` models the final
`RuntimeError` after all candidates failed. -/

/-- Outcome of one `_call_once`. -/
inductive CallResult where
  | ok (response : String)
  | err (msg : String)
deriving DecidableEq, Repr

/-- `_RATE_LIMIT_KEYWORDS`. -/
def rateLimitKeywords : List String :=
  ["rate limit", "rate_limit", "too many requests", "quota exceeded",
   "capacity", "limit reached", "usage limit", "model limit", "429"]

/-- `_is_rate_limit_error`: case-insensitive keyword containment in the
error text. -/
def is_rate_limit_error (msg : String) : Bool :=
  rateLimitKeywords.any (fun kw => containsSub msg.toLower kw)

/-- One observable action of `chat`. -/
inductive Event where
  | attempt (model : String) (k : Nat)
  | sleep (secs : Nat)
deriving DecidableEq, Repr

/-- The inner `for attempt in range(max_retries)` loop of `chat` for one
candidate model: success returns the response; a rate-limit-classified
failure sleeps `min(base_delay * 2 ** attempt, max_delay)` and retries the
same model; any other failure breaks to the next candidate.  `fuel` is the
number of remaining attempts and `k` the current attempt index (so the
initial call has `fuel = max_retries`, `k = 0`). -/
def tryModel (call : Nat → CallResult) (mname : String) (base_delay max_delay : Nat) :
    Nat → Nat → List Event × Option String
  | 0, _ => ([], none)
  | fuel + 1, k =>
    match call k with
    | CallResult.ok r => ([Event.attempt mname k], some r)
    | CallResult.err e =>
      if is_rate_limit_error e then
        let next := tryModel call mname base_delay max_delay fuel (k + 1)
        (Event.attempt mname k :: Event.sleep (min (base_delay * 2 ^ k) max_delay) :: next.1,
         next.2)
      else ([Event.attempt mname k], none)

/-- The outer `for model_name in models_to_try` loop of `chat`. -/
def chatModels (env : String → Nat → CallResult) (max_retries base_delay max_delay : Nat) :
    List String → List Event × Option String
  | [] => ([], none)
  | m :: rest =>
    let r := tryModel (env m) m base_delay max_delay max_retries 0
    match r.2 with
    | some x => (r.1, some x)
    | none =>
      let r2 := chatModels env max_retries base_delay max_delay rest
      (r.1 ++ r2.1, r2.2)

/-- `chat`: candidate list `[model] + [m for m in fallbacks if m != model]`,
then the nested retry loop. -/
def chat (env : String → Nat → CallResult) (model : String) (fallbacks : List String)
    (max_retries base_delay max_delay : Nat) : List Event × Option String :=
  let models_to_try := model :: fallbacks.filter (fun m => m != model)
  chatModels env max_retries base_delay max_delay models_to_try

/-- Trace wellformedness for backoff: every `sleep` immediately follows an
`attempt` whose call failed with a rate-limit-classified error, and its
duration is exactly `min (base_delay * 2 ^ k) max_delay` for that attempt's
index `k`. -/
def sleepsOK (env : String → Nat → CallResult) (base_delay max_delay : Nat) :
    List Event → Bool
  | [] => true
  | Event.sleep _ :: _ => false
  | Event.attempt m k :: Event.sleep d :: rest =>
    (match env m k with
     | CallResult.err e => is_rate_limit_error e
     | CallResult.ok _ => false)
    && (d == min (base_delay * 2 ^ k) max_delay)
    && sleepsOK env base_delay max_delay rest
  | Event.attempt _ _ :: rest => sleepsOK env base_delay max_delay rest

/-- The models of the attempt events of a trace, in order. -/
def attemptModels (tr : List Event) : List String :=
  tr.filterMap (fun e => match e with
    | Event.attempt m _ => some m
    | Event.sleep _ => none)

/-! ### `tasuki/worker.py`: `_parse_tool_call`, `extract_handoff_from_response`
and the tool loop of `run_worker`. -/

def openTag : List Char := "<tool_call>".toList
def closeTag : List Char := "</tool_call>".toList

/-- Try the regex `<tool_call>\s*\n(.*?)</tool_call>` (DOTALL) anchored at
the start of `s`.  The greedy `\s*` followed by `\n` consumes whitespace up
to the last newline of the maximal whitespace run after the opening tag
(backtracking from the longest run), and the non-greedy body ends at the
first later occurrence of the closing tag (which starts with a
non-whitespace character, so it can never begin inside that run).  Returns
`(group 1, text after the match)`. -/
def matchToolCallAt (s : List Char) : Option (List Char × List Char) :=
  if headMatches openTag s then
    let rest := s.drop openTag.length
    let w := rest.takeWhile isPyWs
    match rfindIdxFrom ['\n'] w with
    | none => none
    | some j =>
      let afterNl := rest.drop (j + 1)
      match findIdxFrom closeTag afterNl with
      | none => none
      | some p => some (afterNl.take p, afterNl.drop (p + closeTag.length))
  else none

/-- `re.search` of the tool-call pattern: leftmost start position at which
the pattern matches. -/
def findToolCallBlock : List Char → Option (List Char × List Char)
  | [] => none
  | s@(_ :: rest) =>
    match matchToolCallAt s with
    | some r => some r
    | none => findToolCallBlock rest

/-- Python `\w` (word character); the tool-call keys handled here are
ASCII. -/
def isWordChar (c : Char) : Bool :=
  c.isAlphanum || c = '_'

/-- `re.match(r"^(\w+):\s*(.*)", line)`: a non-empty maximal run of word
characters, a colon, optional whitespace, then the rest of the line. -/
def matchKV (line : List Char) : Option (List Char × List Char) :=
  let key := line.takeWhile isWordChar
  if key.isEmpty then none
  else
    match line.drop key.length with
    | ':' :: rest => some (key, rest.dropWhile isPyWs)
    | _ => none

/-- Flush the accumulated value of the current key (Python: the
`if current_key:` body).  The key `"tool"` sets the tool name; every other
key is a dict assignment into `args`. -/
def flushKV (tool : Option String) (args : List (String × String))
    (key : Option String) (lines : List String) : Option String × List (String × String) :=
  match key with
  | none => (tool, args)
  | some k =>
    let val := pyStrip (String.intercalate "\n" lines)
    if k = "tool" then (some val, args) else (tool, dictSet args k val)

/-- The `for line in block.splitlines()` loop of `_parse_tool_call`,
carrying `(tool_name, args)`, the current key and its accumulated lines. -/
def parseKVLines : List String → Option String × List (String × String) →
    Option String → List String → Option String × List (String × String)
  | [], acc, key, cur => flushKV acc.1 acc.2 key cur
  | line :: rest, acc, key, cur =>
    match matchKV line.toList with
    | some (k, v) =>
      parseKVLines rest (flushKV acc.1 acc.2 key cur) (some k.asString) [v.asString]
    | none => parseKVLines rest acc key (cur ++ [line])

/-- `_parse_tool_call(text)`: `(tool_name, args, remaining)`.  `args` is
`none` exactly when no tool-call block was found. -/
def parse_tool_call (text : String) :
    Option String × Option (List (String × String)) × String :=
  match findToolCallBlock text.toList with
  | none => (none, none, text)
  | some (blockChars, afterChars) =>
    let block := pyStrip blockChars.asString
    let parsed := parseKVLines (pySplitlines block) (none, []) none []
    (parsed.1, some parsed.2, pyStrip afterChars.asString)

/-- `extract_handoff_from_response`: the first of the markers `"# Summary"`,
`"# Handoff"`, `"# What was done"` that occurs; otherwise from the last
`"\n# "`; otherwise the whole response, stripped. -/
def extract_handoff_from_response (response : String) : String :=
  let cs := response.toList
  match findIdxFrom "# Summary".toList cs with
  | some idx => (stripChars (cs.drop idx)).asString
  | none =>
    match findIdxFrom "# Handoff".toList cs with
    | some idx => (stripChars (cs.drop idx)).asString
    | none =>
      match findIdxFrom "# What was done".toList cs with
      | some idx => (stripChars (cs.drop idx)).asString
      | none =>
        match rfindIdxFrom "\n# ".toList cs with
        | some last_h => (stripChars (cs.drop (last_h + 1))).asString
        | none => pyStrip response

/-- A conversation message. -/
structure Msg where
  role : String
  content : String
deriving DecidableEq, Repr

def maxToolIterations : Nat := 20

/-- The synthetic handoff used when `handoff_content` is empty after the
loop. -/
def budgetExceededHandoff : String :=
  "# Summary\n\nTask processing reached iteration limit. Partial work may have been done.\n\n# Notes / Concerns\n\nMax tool iterations reached."

/-- The `for iteration in range(_MAX_TOOL_ITERATIONS)` loop of `run_worker`.
`responses iteration` is the LLM reply of that iteration (an environment
oracle for `chat`), `toolResults iteration` the textual result of whatever
tool call that iteration executed (tools run outside the embedding; an
unknown tool name also just produces feedback text).  `fuel` is the number
of remaining iterations.  When a response contains no tool-call block the
loop breaks with the extracted handoff; when the budget is exhausted the
`for`-`else` branch extracts from the last message only if it is an
assistant message, and otherwise leaves `handoff_content` empty. -/
def workerLoop (responses toolResults : Nat → String) :
    Nat → Nat → List Msg → List Msg × String
  | 0, _, messages =>
    (messages,
     match messages.getLast? with
     | some m => if m.role = "assistant" then extract_handoff_from_response m.content else ""
     | none => "")
  | fuel + 1, iteration, messages =>
    let response := responses iteration
    let messages2 := messages ++ [{ role := "assistant", content := response }]
    match (parse_tool_call response).1 with
    | none => (messages2, extract_handoff_from_response response)
    | some _ =>
      let feedback :=
        "<tool_result>\n" ++ toolResults iteration ++
        "\n</tool_result>\n\nContinue with the task. Use another tool or write the HANDOFF if done."
      workerLoop responses toolResults fuel (iteration + 1)
        (messages2 ++ [{ role := "user", content := feedback }])

/-- `run_worker`, reduced to the text it returns (and writes to the handoff
file): run the tool loop from the initial user message; if the resulting
`handoff_content` is empty, substitute the synthetic budget-exceeded
handoff. -/
def run_worker (responses toolResults : Nat → String) (initialUser : String) : String :=
  let result := workerLoop responses toolResults maxToolIterations 0
    [{ role := "user", content := initialUser }]
  if result.2 = "" then budgetExceededHandoff else result.2

/-! ## Claim C1: semantics of `TaskStore.claim` -/

/-- C1: `claim(task_id, worker_id)` returns the task with status `"running"`
and the worker id stamped if and only if a task with that id exists and its
status is `"pending"`; in every other case (absent id, or status not
pending) it returns `None` without error and the store is unchanged. -/
theorem C1_claim_spec (s : TaskStore) (tid wid : String) :
    ((TaskStore.claim s tid wid).1.isSome ↔
      ∃ t, dictGet s tid = some t ∧ t.status = "pending")
    ∧ (∀ t, dictGet s tid = some t → t.status = "pending" →
        (TaskStore.claim s tid wid).1 =
          some { t with status := "running", worker_id := some wid })
    ∧ ((TaskStore.claim s tid wid).1 = none → (TaskStore.claim s tid wid).2 = s) := by
  cases hget : dictGet s tid with
  | none => simp [TaskStore.claim, hget]
  | some t =>
    by_cases hst : t.status = "pending"
    · refine ⟨?_, ?_, ?_⟩
      · simp only [TaskStore.claim, hget, if_pos hst, Option.isSome_some, true_iff]
        exact ⟨t, rfl, hst⟩
      · intro t2 ht2 _
        injection ht2 with ht2
        subst ht2
        simp [TaskStore.claim, hget, if_pos hst]
      · simp [TaskStore.claim, hget, if_pos hst]
    · refine ⟨?_, ?_, ?_⟩
      · simp only [TaskStore.claim, hget, if_neg hst, Option.isSome_none,
          Bool.false_eq_true, false_iff]
        rintro ⟨t2, ht2, hp⟩
        injection ht2 with ht2
        subst ht2
        exact hst hp
      · intro t2 ht2 hp
        injection ht2 with ht2
        subst ht2
        exact absurd hp hst
      · simp [TaskStore.claim, hget, if_neg hst]

/-- Witness for C1 on a one-task store holding a pending task. -/
theorem C1_claim_spec_witness :
    (TaskStore.claim [("t1", { id := "t1", planner_id := "root", description := "d" })] "t1" "w1").1 =
      some { id := "t1", planner_id := "root", description := "d",
             status := "running", worker_id := some "w1" } :=
  (C1_claim_spec [("t1", { id := "t1", planner_id := "root", description := "d" })] "t1" "w1").2.1
    { id := "t1", planner_id := "root", description := "d" } (by decide) (by decide)

/-! ## Claim C10: frame condition of `TaskStore.claim` -/

/-- C10: a successful `claim` modifies only the `status` and `worker_id`
fields of the claimed task — its `id`, `planner_id`, `description`,
`handoff_path` and `meta`, and every other task in the store, are unchanged
— and a `claim` that returns `None` changes nothing at all. -/
theorem C10_claim_frame (s : TaskStore) (tid wid : String) :
    (∀ t2, (TaskStore.claim s tid wid).1 = some t2 →
      ∃ t, dictGet s tid = some t ∧
        t2.id = t.id ∧ t2.planner_id = t.planner_id ∧
        t2.description = t.description ∧ t2.handoff_path = t.handoff_path ∧
        t2.meta = t.meta ∧ t2.status = "running" ∧ t2.worker_id = some wid ∧
        dictGet (TaskStore.claim s tid wid).2 tid = some t2 ∧
        (∀ k, k ≠ tid → dictGet (TaskStore.claim s tid wid).2 k = dictGet s k))
    ∧ ((TaskStore.claim s tid wid).1 = none → (TaskStore.claim s tid wid).2 = s) := by
  cases hget : dictGet s tid with
  | none => simp [TaskStore.claim, hget]
  | some t =>
    by_cases hst : t.status = "pending"
    · constructor
      · intro t2 ht2
        simp only [TaskStore.claim, hget, if_pos hst, Option.some.injEq] at ht2
        refine ⟨t, rfl, ?_⟩
        subst ht2
        refine ⟨rfl, rfl, rfl, rfl, rfl, rfl, rfl, ?_, ?_⟩
        · simp [TaskStore.claim, hget, if_pos hst, dictGet_dictSet_self]
        · intro k hk
          simp only [TaskStore.claim, hget, if_pos hst]
          exact dictGet_dictSet_ne s tid k _ hk
      · simp [TaskStore.claim, hget, if_pos hst]
    · simp [TaskStore.claim, hget, if_neg hst]

/-- Witness for C10 on a one-task store holding a pending task. -/
theorem C10_claim_frame_witness :
    ∃ t, dictGet [("t1", ({ id := "t1", planner_id := "root", description := "d" } : Task))] "t1" = some t ∧
      ({ id := "t1", planner_id := "root", description := "d",
         status := "running", worker_id := some "w1" } : Task).id = t.id ∧
      ({ id := "t1", planner_id := "root", description := "d",
         status := "running", worker_id := some "w1" } : Task).planner_id = t.planner_id ∧
      ({ id := "t1", planner_id := "root", description := "d",
         status := "running", worker_id := some "w1" } : Task).description = t.description ∧
      ({ id := "t1", planner_id := "root", description := "d",
         status := "running", worker_id := some "w1" } : Task).handoff_path = t.handoff_path ∧
      ({ id := "t1", planner_id := "root", description := "d",
         status := "running", worker_id := some "w1" } : Task).meta = t.meta ∧
      ({ id := "t1", planner_id := "root", description := "d",
         status := "running", worker_id := some "w1" } : Task).status = "running" ∧
      ({ id := "t1", planner_id := "root", description := "d",
         status := "running", worker_id := some "w1" } : Task).worker_id = some "w1" ∧
      dictGet (TaskStore.claim [("t1", { id := "t1", planner_id := "root", description := "d" })] "t1" "w1").2 "t1" =
        some { id := "t1", planner_id := "root", description := "d",
               status := "running", worker_id := some "w1" } ∧
      (∀ k, k ≠ "t1" →
        dictGet (TaskStore.claim [("t1", { id := "t1", planner_id := "root", description := "d" })] "t1" "w1").2 k =
          dictGet [("t1", { id := "t1", planner_id := "root", description := "d" })] k) :=
  (C10_claim_frame [("t1", { id := "t1", planner_id := "root", description := "d" })] "t1" "w1").1
    { id := "t1", planner_id := "root", description := "d",
      status := "running", worker_id := some "w1" } (by decide)

/-! ## Claim C5: `add` on a duplicate id -/

/-- C5 counterexample: `add` does not fail on a duplicate id — it silently
replaces the existing record (Python dict assignment), here overwriting a
`done` task with a fresh `pending` one. -/
theorem C5_add_duplicate_counterexample :
    dictGet
      (TaskStore.add
        (TaskStore.add []
          { id := "t1", planner_id := "root", description := "old",
            status := "done", handoff_path := some "h.md" })
        { id := "t1", planner_id := "root", description := "new" })
      "t1" =
      some { id := "t1", planner_id := "root", description := "new" } := by
  decide

/-- C5 amended: adding a task whose id already exists does not fail; it
replaces the stored record for that id with the new task and leaves every
other entry unchanged (`add_many` applies the same assignment per task). -/
theorem C5_add_overwrites (s : TaskStore) (t : Task) :
    dictGet (TaskStore.add s t) t.id = some t
    ∧ (∀ k, k ≠ t.id → dictGet (TaskStore.add s t) k = dictGet s k)
    ∧ TaskStore.add_many s [t] = TaskStore.add s t := by
  refine ⟨dictGet_dictSet_self s t.id t, ?_, rfl⟩
  intro k hk
  exact dictGet_dictSet_ne s t.id k t hk

/-- Witness for C5's amended theorem at a concrete duplicate id. -/
theorem C5_add_overwrites_witness :
    dictGet
      (TaskStore.add [("t1", { id := "t1", planner_id := "root", description := "old" })]
        { id := "t1", planner_id := "root", description := "new" })
      "t2" =
      dictGet [("t1", ({ id := "t1", planner_id := "root", description := "old" } : Task))] "t2" :=
  (C5_add_overwrites [("t1", { id := "t1", planner_id := "root", description := "old" })]
    { id := "t1", planner_id := "root", description := "new" }).2.1 "t2" (by decide)

/-! ## Claim C6: `complete` on an unknown or already-done id -/

/-- C6 counterexample: `complete` on an already-`done` task is not a no-op —
it overwrites the stored handoff reference (`a.md` becomes `b.md`). -/
theorem C6_complete_done_counterexample :
    handoffOf
      (TaskStore.complete
        [("t1", { id := "t1", planner_id := "root", description := "d",
                  status := "done", handoff_path := some "a.md" })]
        "t1" "b.md")
      "t1" = some (some "b.md") := by
  decide

/-- C6 amended: `complete` on an id absent from the store is a no-op and
never raises; on any present task (including an already-`done` one) it sets
the status to `"done"` and replaces the handoff reference with the new one,
leaving the task's other fields and all other tasks unchanged. -/
theorem C6_complete_spec (s : TaskStore) (tid path : String) :
    (dictGet s tid = none → TaskStore.complete s tid path = s)
    ∧ (∀ t, dictGet s tid = some t →
        TaskStore.complete s tid path =
          dictSet s tid { t with status := "done", handoff_path := some path }) := by
  constructor
  · intro h
    simp [TaskStore.complete, h]
  · intro t h
    simp [TaskStore.complete, h]

/-- Witness for C6's amended theorem: completing an unknown id leaves a
concrete store untouched. -/
theorem C6_complete_spec_witness :
    TaskStore.complete [("t1", { id := "t1", planner_id := "root", description := "d" })]
      "missing" "h.md" =
      [("t1", { id := "t1", planner_id := "root", description := "d" })] :=
  (C6_complete_spec [("t1", { id := "t1", planner_id := "root", description := "d" })]
    "missing" "h.md").1 (by decide)

/-! ## Claim C2: the task status state machine

The mutating store operations as a trace alphabet, to quantify over
operation sequences. -/

/-- One mutating `TaskStore` operation. -/
inductive Op where
  | add (t : Task)
  | claim (task_id worker_id : String)
  | complete (task_id : String) (handoff_path : String)
deriving DecidableEq, Repr

/-- Apply one operation (the returned value of `claim` is dropped). -/
def applyOp (s : TaskStore) : Op → TaskStore
  | Op.add t => TaskStore.add s t
  | Op.claim tid wid => (TaskStore.claim s tid wid).2
  | Op.complete tid p => TaskStore.complete s tid p

/-- Restrictions under which the amended C2 holds: `add` only with a fresh
id and a `"pending"` task, `complete` only on ids that are absent or whose
task is `"running"`.  `claim` is unrestricted. -/
def okOp (s : TaskStore) : Op → Bool
  | Op.add t => (dictGet s t.id).isNone && (t.status == "pending")
  | Op.claim _ _ => true
  | Op.complete tid _ =>
    match dictGet s tid with
    | some t => t.status == "running"
    | none => true

/-- All operations of a trace respect `okOp` at the state they run in. -/
def okTrace : TaskStore → List Op → Bool
  | _, [] => true
  | s, op :: rest => okOp s op && okTrace (applyOp s op) rest

/-- The intermediate stores of a trace (including start and end). -/
def states : TaskStore → List Op → List TaskStore
  | s, [] => [s]
  | s, op :: rest => s :: states (applyOp s op) rest

/-- An allowed single-step evolution of one task id's status: unchanged,
appearing as `"pending"`, `pending → running`, or `running → done`. -/
def stepOK (a b : Option String) : Bool :=
  (a == b) || (a == none && b == some "pending")
    || (a == some "pending" && b == some "running")
    || (a == some "running" && b == some "done")

theorem stepOK_refl (a : Option String) : stepOK a a = true := by
  simp [stepOK]

/-- Each single restricted operation moves every task id's status along an
allowed step. -/
theorem stepOK_applyOp (s : TaskStore) (op : Op) (hop : okOp s op = true) (tid : String) :
    stepOK (statusOf s tid) (statusOf (applyOp s op) tid) = true := by
  cases op with
  | add t =>
    simp only [okOp, Bool.and_eq_true, Option.isNone_iff_eq_none, beq_iff_eq] at hop
    obtain ⟨hfresh, hpend⟩ := hop
    by_cases htid : tid = t.id
    · subst htid
      simp [applyOp, TaskStore.add, statusOf, hfresh, dictGet_dictSet_self, hpend, stepOK]
    · have h := dictGet_dictSet_ne s t.id tid t htid
      simp only [applyOp, TaskStore.add, statusOf, h]
      exact stepOK_refl _
  | claim tid2 wid =>
    cases hget : dictGet s tid2 with
    | none =>
      simp only [applyOp, TaskStore.claim, hget]
      exact stepOK_refl _
    | some t =>
      by_cases hst : t.status = "pending"
      · by_cases htid : tid = tid2
        · subst htid
          simp [applyOp, TaskStore.claim, hget, if_pos hst, statusOf,
            dictGet_dictSet_self, hst, stepOK]
        · have h := dictGet_dictSet_ne s tid2 tid
            { t with status := "running", worker_id := some wid } htid
          simp only [applyOp, TaskStore.claim, hget, if_pos hst, statusOf, h]
          exact stepOK_refl _
      · simp only [applyOp, TaskStore.claim, hget, if_neg hst]
        exact stepOK_refl _
  | complete tid2 p =>
    cases hget : dictGet s tid2 with
    | none =>
      simp only [applyOp, TaskStore.complete, hget]
      exact stepOK_refl _
    | some t =>
      simp only [okOp, hget, beq_iff_eq] at hop
      by_cases htid : tid = tid2
      · subst htid
        simp [applyOp, TaskStore.complete, hget, statusOf, dictGet_dictSet_self, hop, stepOK]
      · have h := dictGet_dictSet_ne s tid2 tid
          { t with status := "done", handoff_path := some p } htid
        simp only [applyOp, TaskStore.complete, hget, statusOf, h]
        exact stepOK_refl _

theorem states_head (s : TaskStore) (ops : List Op) :
    (states s ops).head? = some s := by
  cases ops <;> simp [states]

/-- C2 amended: along any sequence of `add` / `claim` / `complete`
operations in which `add` is only given fresh ids carrying `"pending"`
tasks and `complete` is only applied to absent ids or `"running"` tasks,
every task id's status sequence only takes the steps
`pending → running → done` (besides staying put or first appearing as
`"pending"`).  Without these restrictions the claim fails, see the
counterexample: `complete` moves even a never-claimed `"pending"` task
straight to `"done"`, and re-`add`ing an existing id moves a `"done"`
task back to `"pending"`. -/
theorem C2_status_machine (s : TaskStore) (ops : List Op) (tid : String)
    (h : okTrace s ops = true) :
    List.Chain' (fun a b => stepOK a b = true)
      ((states s ops).map (fun st => statusOf st tid)) := by
  induction ops generalizing s with
  | nil => simp [states]
  | cons op rest ih =>
    simp only [okTrace, Bool.and_eq_true] at h
    obtain ⟨h1, h2⟩ := h
    simp only [states, List.map_cons]
    rw [List.chain'_cons']
    constructor
    · intro b hb
      have hh := states_head (applyOp s op) rest
      rcases hhead : (states (applyOp s op) rest) with _ | ⟨st0, sts⟩
      · rw [hhead] at hh; simp at hh
      · rw [hhead] at hh
        simp only [List.head?_cons, Option.some.injEq] at hh
        subst hh
        simp only [hhead, List.map_cons, List.head?_cons, Option.mem_def,
          Option.some.injEq] at hb
        subst hb
        exact stepOK_applyOp s op h1 tid
    · exact ih (applyOp s op) h2

/-- C2 counterexample for the claim as stated: starting from an empty store,
`add` a pending task, then `complete` it without any `claim` — a direct
`pending → done` transition (so `done` is reached other than via `complete`
on a `running` task); then `add` a task with the same id again — a
`done → pending` transition. -/
theorem C2_status_machine_counterexample :
    (statusOf (TaskStore.add [] { id := "t1", planner_id := "root", description := "d" }) "t1" =
      some "pending")
    ∧ (statusOf
        (TaskStore.complete
          (TaskStore.add [] { id := "t1", planner_id := "root", description := "d" })
          "t1" "h.md") "t1" = some "done")
    ∧ (statusOf
        (TaskStore.add
          (TaskStore.complete
            (TaskStore.add [] { id := "t1", planner_id := "root", description := "d" })
            "t1" "h.md")
          { id := "t1", planner_id := "root", description := "d" }) "t1" = some "pending") := by
  decide

/-- Witness for C2's amended theorem on a concrete restricted trace
(add pending, claim, complete). -/
theorem C2_status_machine_witness :
    okTrace []
      [Op.add { id := "t1", planner_id := "root", description := "d" },
       Op.claim "t1" "w1", Op.complete "t1" "h.md"] = true
    ∧ List.Chain' (fun a b => stepOK a b = true)
        ((states []
          [Op.add { id := "t1", planner_id := "root", description := "d" },
           Op.claim "t1" "w1", Op.complete "t1" "h.md"]).map
          (fun st => statusOf st "t1")) :=
  ⟨by decide,
   C2_status_machine []
     [Op.add { id := "t1", planner_id := "root", description := "d" },
      Op.claim "t1" "w1", Op.complete "t1" "h.md"] "t1" (by decide)⟩

/-! ## Claim C4: sub-planner eligibility (`get_subs_to_run`) -/

/-- C4 counterexample: a sub-planner that has already run (`is_new = false`)
is returned by `get_subs_to_run` even though its only `done` handoff arrived
*before* it was last processed.  History: the sub-planner is created, its
task completes (producing the handoff), the planner is run and marked run —
and the next eligibility query still returns it, since the code checks for
the existence of any done handoff, not for new ones. -/
theorem C4_subs_to_run_counterexample :
    (PlannerRegistry.get
      (PlannerRegistry.mark_run
        (PlannerRegistry.add_sub [] "s1" "root" "handle the documentation").1 "s1")
      "s1").map SubPlanner.is_new = some false
    ∧ (PlannerRegistry.get_subs_to_run
        (PlannerRegistry.mark_run
          (PlannerRegistry.add_sub [] "s1" "root" "handle the documentation").1 "s1")
        (TaskStore.complete
          ((TaskStore.claim
            (TaskStore.add [] { id := "t1", planner_id := "s1", description := "d" })
            "t1" "w1").2)
          "t1" "h.md")).map SubPlanner.id = ["s1"] := by
  decide

/-- C4 amended: `get_subs_to_run` returns exactly the registered
sub-planners that are never-yet-run (`is_new`) or for which the task store
currently holds at least one `done` task with a handoff reference —
regardless of whether any of those handoffs arrived since the sub-planner
was last processed. -/
theorem C4_subs_to_run_iff (reg : PlannerRegistry) (store : TaskStore) (sub : SubPlanner) :
    sub ∈ PlannerRegistry.get_subs_to_run reg store ↔
      sub ∈ reg.map Prod.snd ∧
        (sub.is_new = true ∨ TaskStore.get_handoffs_for_planner store sub.id ≠ []) := by
  unfold PlannerRegistry.get_subs_to_run
  rw [List.mem_filter]
  constructor
  · rintro ⟨hmem, hcond⟩
    refine ⟨hmem, ?_⟩
    rcases Bool.or_eq_true _ _ |>.mp hcond with h | h
    · exact Or.inl h
    · right
      intro hnil
      rw [hnil] at h
      simp at h
  · rintro ⟨hmem, hcond⟩
    refine ⟨hmem, ?_⟩
    rcases hcond with h | h
    · simp [h]
    · have : (TaskStore.get_handoffs_for_planner store sub.id).isEmpty = false := by
        cases hl : TaskStore.get_handoffs_for_planner store sub.id with
        | nil => exact absurd hl h
        | cons a l => simp
      simp [this]

/-- Witness for C4's amended theorem: a never-run sub-planner is returned
on an empty task store. -/
theorem C4_subs_to_run_iff_witness :
    ({ id := "s1", parent_id := "root", scope := "x" } : SubPlanner) ∈
      PlannerRegistry.get_subs_to_run
        [("s1", { id := "s1", parent_id := "root", scope := "x" })] [] :=
  (C4_subs_to_run_iff [("s1", { id := "s1", parent_id := "root", scope := "x" })] []
    { id := "s1", parent_id := "root", scope := "x" }).mpr
    ⟨by decide, Or.inl (by decide)⟩

/-! ## Claim C9: snapshot round trip -/

/-- C9: `from_dict ∘ to_dict` is the identity on `Task` and on `SubPlanner`
records, so reloading a persisted snapshot reproduces the same records.
The hypothesis mirrors the `pathlib.Path` invariant that a path's string
form is never empty (`str(Path(...))` cannot be `""`), which the string
model of `handoff_path` cannot express by type. -/
theorem C9_round_trip (t : Task) (h : t.handoff_path ≠ some "") (sp : SubPlanner) :
    Task.from_dict (Task.to_dict t) = t
    ∧ SubPlanner.from_dict (SubPlanner.to_dict sp) = sp := by
  constructor
  · cases t with
    | mk id planner_id description status worker_id handoff_path meta =>
      cases handoff_path with
      | none => rfl
      | some p =>
        have hp : ¬ p = "" := by
          intro hp
          exact h (by rw [hp])
        simp [Task.to_dict, Task.from_dict, hp]
  · cases sp
    rfl

/-- Witness for C9 at concrete records. -/
theorem C9_round_trip_witness :
    Task.from_dict (Task.to_dict
      { id := "t1", planner_id := "root", description := "d",
        status := "done", worker_id := some "w1", handoff_path := some "h.md",
        meta := [("k", "v")] }) =
      { id := "t1", planner_id := "root", description := "d",
        status := "done", worker_id := some "w1", handoff_path := some "h.md",
        meta := [("k", "v")] }
    ∧ SubPlanner.from_dict (SubPlanner.to_dict
        { id := "s1", parent_id := "root", scope := "x", is_new := false }) =
      { id := "s1", parent_id := "root", scope := "x", is_new := false } :=
  C9_round_trip
    { id := "t1", planner_id := "root", description := "d",
      status := "done", worker_id := some "w1", handoff_path := some "h.md",
      meta := [("k", "v")] }
    (by decide)
    { id := "s1", parent_id := "root", scope := "x", is_new := false }

/-! ## Claim C7: retry, backoff and fallback order in `chat` -/

/-- Appending a well-formed tail to the trace of one candidate's retry loop
keeps the whole trace well-formed: every sleep has the exact capped
exponential duration and follows a rate-limit-classified failed attempt. -/
theorem tryModel_sleepsOK (env : String → Nat → CallResult) (m : String)
    (base_delay max_delay : Nat) :
    ∀ fuel k tail, sleepsOK env base_delay max_delay tail = true →
      sleepsOK env base_delay max_delay
        ((tryModel (env m) m base_delay max_delay fuel k).1 ++ tail) = true := by
  intro fuel
  induction fuel with
  | zero => intro k tail htail; simpa [tryModel] using htail
  | succ fuel ih =>
    intro k tail htail
    cases henv : env m k with
    | ok r =>
      simp only [tryModel, henv, List.cons_append, List.nil_append]
      cases tail with
      | nil => simp [sleepsOK]
      | cons e t2 =>
        cases e with
        | attempt m2 k2 => simpa [sleepsOK] using htail
        | sleep d => rw [sleepsOK] at htail; exact absurd htail (by simp)
    | err e =>
      by_cases hrl : is_rate_limit_error e = true
      · simp only [tryModel, henv, hrl, if_pos, List.cons_append]
        rw [sleepsOK]
        simp only [henv, hrl, Nat.beq_refl, Bool.and_eq_true, beq_self_eq_true,
          true_and]
        exact ih (k + 1) tail htail
      · simp only [tryModel, henv, if_neg hrl, List.cons_append, List.nil_append]
        cases tail with
        | nil => simp [sleepsOK]
        | cons e2 t2 =>
          cases e2 with
          | attempt m2 k2 => simpa [sleepsOK] using htail
          | sleep d => rw [sleepsOK] at htail; exact absurd htail (by simp)

/-- The attempts of one candidate's retry loop are at most `fuel` many, all
on that candidate. -/
theorem tryModel_attemptModels (call : Nat → CallResult) (m : String)
    (base_delay max_delay : Nat) :
    ∀ fuel k, ∃ r, r ≤ fuel ∧
      attemptModels (tryModel call m base_delay max_delay fuel k).1 = List.replicate r m := by
  intro fuel
  induction fuel with
  | zero => intro k; exact ⟨0, Nat.le_refl 0, by simp [tryModel, attemptModels]⟩
  | succ fuel ih =>
    intro k
    cases henv : call k with
    | ok r =>
      exact ⟨1, Nat.succ_le_succ (Nat.zero_le fuel),
        by simp [tryModel, henv, attemptModels, List.replicate]⟩
    | err e =>
      by_cases hrl : is_rate_limit_error e = true
      · obtain ⟨r, hr, hrep⟩ := ih (k + 1)
        refine ⟨r + 1, Nat.succ_le_succ hr, ?_⟩
        simp only [tryModel, henv, hrl, if_pos, attemptModels, List.filterMap_cons]
        simp only [attemptModels] at hrep
        rw [hrep]
        simp [List.replicate_succ]
      · exact ⟨1, Nat.succ_le_succ (Nat.zero_le fuel),
          by simp [tryModel, henv, hrl, attemptModels, List.replicate]⟩

theorem attemptModels_append (a b : List Event) :
    attemptModels (a ++ b) = attemptModels a ++ attemptModels b := by
  simp [attemptModels, List.filterMap_append]

theorem zip_replicate_zero_flatMap (l : List String) :
    ((l.zip (List.replicate l.length 0)).flatMap
      (fun p => List.replicate p.2 p.1)) = [] := by
  induction l with
  | nil => rfl
  | cons a l ih => simpa [List.replicate_succ] using ih

/-- Over any candidate list, the trace of `chatModels` is well-formed for
sleeps, and its attempt sequence is block-shaped: candidate by candidate in
list order, each candidate attempted at most `max_retries` times. -/
theorem chatModels_spec (env : String → Nat → CallResult)
    (max_retries base_delay max_delay : Nat) :
    ∀ cands : List String,
      sleepsOK env base_delay max_delay
        (chatModels env max_retries base_delay max_delay cands).1 = true
      ∧ ∃ reps : List Nat, reps.length = cands.length
          ∧ (∀ r ∈ reps, r ≤ max_retries)
          ∧ attemptModels (chatModels env max_retries base_delay max_delay cands).1 =
              (cands.zip reps).flatMap (fun p => List.replicate p.2 p.1) := by
  intro cands
  induction cands with
  | nil =>
    exact ⟨by simp [chatModels, sleepsOK], [], rfl, by simp, by simp [chatModels, attemptModels]⟩
  | cons m rest ih =>
    obtain ⟨ihs, reps, hlen, hbound, hrep⟩ := ih
    obtain ⟨r0, hr0, hrep0⟩ := tryModel_attemptModels (env m) m base_delay max_delay max_retries 0
    cases hres : (tryModel (env m) m base_delay max_delay max_retries 0).2 with
    | some x =>
      refine ⟨?_, r0 :: List.replicate rest.length 0, by simp, ?_, ?_⟩
      · have h := tryModel_sleepsOK env m base_delay max_delay max_retries 0 []
          (by simp [sleepsOK])
        rw [List.append_nil] at h
        simpa [chatModels, hres] using h
      · intro r hr
        rcases List.mem_cons.mp hr with h | h
        · exact h ▸ hr0
        · have : r = 0 := List.eq_of_mem_replicate h
          simp [this]
      · simp only [chatModels, hres, List.zip_cons_cons, List.flatMap_cons]
        rw [zip_replicate_zero_flatMap, hrep0, List.append_nil]
    | none =>
      refine ⟨?_, r0 :: reps, by simp [hlen], ?_, ?_⟩
      · have h := tryModel_sleepsOK env m base_delay max_delay max_retries 0
          (chatModels env max_retries base_delay max_delay rest).1 ihs
        simpa [chatModels, hres] using h
      · intro r hr
        rcases List.mem_cons.mp hr with h | h
        · exact h ▸ hr0
        · exact hbound r h
      · simp only [chatModels, hres, List.zip_cons_cons, List.flatMap_cons]
        rw [attemptModels_append, hrep0, hrep]

/-- C7: in `chat`, every backoff sleep before retrying a model after a
rate-limit-classified failure of 0-based attempt `k` lasts exactly
`min (base_delay * 2 ^ k) max_delay`; sleeps occur only after such
failures; and the attempts form consecutive per-candidate blocks of at most
`max_retries` attempts each, in the order `model` followed by the fallback
chain with duplicates of the primary removed (first-seen order kept). -/
theorem C7_chat_backoff (env : String → Nat → CallResult) (model : String)
    (fallbacks : List String) (max_retries base_delay max_delay : Nat) :
    sleepsOK env base_delay max_delay
      (chat env model fallbacks max_retries base_delay max_delay).1 = true
    ∧ ∃ reps : List Nat,
        reps.length = (model :: fallbacks.filter (fun m => m != model)).length
        ∧ (∀ r ∈ reps, r ≤ max_retries)
        ∧ attemptModels (chat env model fallbacks max_retries base_delay max_delay).1 =
            ((model :: fallbacks.filter (fun m => m != model)).zip reps).flatMap
              (fun p => List.replicate p.2 p.1) :=
  chatModels_spec env max_retries base_delay max_delay
    (model :: fallbacks.filter (fun m => m != model))

/-- Witness for C7 at a concrete environment: a primary model that is
always rate-limited and one fallback that succeeds. -/
theorem C7_chat_backoff_witness :
    sleepsOK (fun m _ => if m = "primary" then CallResult.err "rate limit" else CallResult.ok "y")
      2 60
      (chat (fun m _ => if m = "primary" then CallResult.err "rate limit" else CallResult.ok "y")
        "primary" ["fb"] 3 2 60).1 = true
    ∧ ∃ reps : List Nat,
        reps.length = ("primary" :: (["fb"].filter (fun m => m != "primary"))).length
        ∧ (∀ r ∈ reps, r ≤ 3)
        ∧ attemptModels
            (chat (fun m _ => if m = "primary" then CallResult.err "rate limit" else CallResult.ok "y")
              "primary" ["fb"] 3 2 60).1 =
            (("primary" :: (["fb"].filter (fun m => m != "primary"))).zip reps).flatMap
              (fun p => List.replicate p.2 p.1) :=
  C7_chat_backoff
    (fun m _ => if m = "primary" then CallResult.err "rate limit" else CallResult.ok "y")
    "primary" ["fb"] 3 2 60

/-! ## Claim C8: the worker always yields a non-empty handoff -/

theorem getLast?_append_one {α : Type} (l : List α) (a : α) :
    (l ++ [a]).getLast? = some a := by
  induction l with
  | nil => rfl
  | cons b l ih =>
    cases l with
    | nil => rfl
    | cons c l2 => simpa using ih

/-- If every response in the remaining iteration window contains a
tool-call block, the loop runs to the end of its budget with the feedback
user message last, so the `for`-`else` branch leaves `handoff_content`
empty. -/
theorem workerLoop_all_tools (responses toolResults : Nat → String) :
    ∀ fuel iteration messages,
      (∀ i, iteration ≤ i → i < iteration + fuel →
        ((parse_tool_call (responses i)).1).isSome = true) →
      messages.getLast?.map Msg.role = some "user" →
      (workerLoop responses toolResults fuel iteration messages).2 = "" := by
  intro fuel
  induction fuel with
  | zero =>
    intro iteration messages _ hlast
    cases hl : messages.getLast? with
    | none => simp [workerLoop, hl]
    | some m =>
      rw [hl] at hlast
      simp only [Option.map_some', Option.some.injEq] at hlast
      simp [workerLoop, hl, hlast]
  | succ fuel ih =>
    intro iteration messages hall hlast
    have hi : ((parse_tool_call (responses iteration)).1).isSome = true :=
      hall iteration (Nat.le_refl _) (by omega)
    cases hp : (parse_tool_call (responses iteration)).1 with
    | none => rw [hp] at hi; exact absurd hi (by simp)
    | some tn =>
      simp only [workerLoop, hp]
      apply ih
      · intro i h1 h2
        exact hall i (by omega) (by omega)
      · rw [getLast?_append_one]
        rfl

/-- C8: if the agent's response of every iteration of the full budget
contains a tool-call block (so no iteration is terminal), `run_worker`
returns the synthetic budget-exceeded handoff, which is non-empty; and on
any responses at all `run_worker` never returns the empty string. -/
theorem C8_budget_handoff (responses toolResults : Nat → String) (initialUser : String)
    (h : ∀ i, i < maxToolIterations →
      ((parse_tool_call (responses i)).1).isSome = true) :
    run_worker responses toolResults initialUser = budgetExceededHandoff
    ∧ budgetExceededHandoff ≠ ""
    ∧ (∀ rs ts iu, run_worker rs ts iu ≠ "") := by
  refine ⟨?_, by decide, ?_⟩
  · have hempty := workerLoop_all_tools responses toolResults maxToolIterations 0
      [{ role := "user", content := initialUser }]
      (fun i _ h2 => h i (by omega)) (by rfl)
    simp [run_worker, hempty]
  · intro rs ts iu
    simp only [run_worker]
    split
    · decide
    · next hne => exact hne

/-- Witness for C8: a worker whose every response is the same tool call
exhausts the budget and returns the synthetic handoff. -/
theorem C8_budget_handoff_witness :
    run_worker (fun _ => "<tool_call>\ntool: run_cmd\ncommand: ls\n</tool_call>")
      (fun _ => "ok") "go" = budgetExceededHandoff
    ∧ budgetExceededHandoff ≠ ""
    ∧ (∀ rs ts iu, run_worker rs ts iu ≠ "") :=
  C8_budget_handoff (fun _ => "<tool_call>\ntool: run_cmd\ncommand: ls\n</tool_call>")
    (fun _ => "ok") "go"
    (fun _ _ => by
      show ((parse_tool_call
        "<tool_call>\ntool: run_cmd\ncommand: ls\n</tool_call>").1).isSome = true
      decide)

end Tasuki
